import Mathlib

/-!
Verification of the pulsing-NeoPixel touch controller (src/main_cpx.py).

The program is a single control loop over three bounded counters (hue,
cycle time, maximum brightness), a pure linear-remapping helper `scale`,
and a color-wheel function `wheel`.  Python's exact numeric semantics are
embedded as follows: `int`s become `ℤ`, `float` arithmetic is modelled by
exact rational arithmetic over `ℚ` (every literal in the program, 0.1
included, is treated as the exact rational it denotes), and Python's
`int(...)` conversion is truncation toward zero (`pyInt`).  The sine of
wall-clock time is abstracted as a per-tick rational input.
-/

set_option maxRecDepth 8000

namespace AdafruitPulse

/-- Python `int(x)`: truncation toward zero of a rational.  Written with
the executable `Rat.floor` so that concrete runs evaluate; `pyInt_eq`
below restates it with `Int.floor`/`Int.ceil`. -/
def pyInt (q : ℚ) : ℤ := if q < 0 then -(-q).floor else q.floor

/-! ### Constants (src/main_cpx.py lines 28-34) -/

def MAX_BRIGHTNESS : ℤ := 255

def MAX_CYCLE_TIME : ℚ := 10.0

def MIN_CYCLE_TIME : ℚ := 0.5

/-- Function `scale(x, x0, x1, y0, y1)` from src/main_cpx.py lines 48-49:
`y0+(x-x0)*((y1-y0)/(x1-x0))`. -/
def scale (x x0 x1 y0 y1 : ℚ) : ℚ :=
  y0 + (x - x0) * ((y1 - y0) / (x1 - x0))

/-- Body of `wheel` after the out-of-range guard (src/main_cpx.py
lines 59-74): the scaled-brightness computation and the three 85-wide
hue bands. -/
def wheelBody (pos brightness max_brightness : ℤ) : ℤ × ℤ × ℤ :=
  let scaled_brightness : ℤ :=
    pyInt (scale (brightness : ℚ) 0 255 0 (max_brightness : ℚ))
  if pos < 85 then
    (pyInt (scale ((255 - pos * 3 : ℤ) : ℚ) 0 255 0 (scaled_brightness : ℚ)),
     pyInt (scale ((pos * 3 : ℤ) : ℚ) 0 255 0 (scaled_brightness : ℚ)),
     0)
  else if pos < 170 then
    let p := pos - 85
    (0,
     pyInt (scale ((255 - p * 3 : ℤ) : ℚ) 0 255 0 (scaled_brightness : ℚ)),
     pyInt (scale ((p * 3 : ℤ) : ℚ) 0 255 0 (scaled_brightness : ℚ)))
  else
    let p := pos - 170
    (pyInt (scale ((p * 3 : ℤ) : ℚ) 0 255 0 (scaled_brightness : ℚ)),
     0,
     pyInt (scale ((255 - p * 3 : ℤ) : ℚ) 0 255 0 (scaled_brightness : ℚ)))

/-- Function `wheel(pos, brightness, max_brightness)` from src/main_cpx.py
lines 55-74: out-of-range positions return black, otherwise the banded
color-wheel interpolation `wheelBody`. -/
def wheel (pos brightness max_brightness : ℤ) : ℤ × ℤ × ℤ :=
  if pos < 0 ∨ pos > 255 then (0, 0, 0)
  else wheelBody pos brightness max_brightness

/-! ### The three touch-pad counter updates (src/main_cpx.py lines 118-144) -/

/-- Color-pad update (lines 120-122): increment the hue, wrapping to 1
past 255. -/
def colorStep (color : ℤ) : ℤ :=
  let c := color + 1
  if c > 255 then 1 else c

/-- Speed-pad update (lines 127-133) on the pair
`(cycle, cycle_change)`. -/
def speedStep (p : ℚ × ℚ) : ℚ × ℚ :=
  let c := p.1 + p.2
  if c > MAX_CYCLE_TIME then (MAX_CYCLE_TIME - 0.1, -0.1)
  else if c < MIN_CYCLE_TIME then (MIN_CYCLE_TIME + 0.1, 0.1)
  else (c, p.2)

/-- Brightness-pad update (lines 136-142) on the pair
`(cycle_max_brightness, max_brightness_change)`. -/
def brightStep (p : ℤ × ℤ) : ℤ × ℤ :=
  let b := p.1 + p.2
  if b > MAX_BRIGHTNESS then (MAX_BRIGHTNESS - 1, -1)
  else if b < 10 then (11, 1)
  else (b, p.2)

/-- Envelope brightness (line 163): `int(scale(s, -1.0, 1.0, 0, 255))`,
where `s` is the sine of scaled wall-clock time. -/
def envBrightness (s : ℚ) : ℤ := pyInt (scale s (-1) 1 0 255)

/-! ### The main loop as a state machine (src/main_cpx.py lines 78-168) -/

/-- The mutable loop variables (lines 78-84). -/
structure State where
  color : ℤ
  cycle : ℚ
  cycle_change : ℚ
  cycle_brightness : ℤ
  cycle_max_brightness : ℤ
  max_brightness_change : ℤ
  deriving DecidableEq, Repr

/-- The three capacitive pads, in the dictionary insertion order of
lines 102-104. -/
inductive Pad
  | color
  | speed
  | brightness
  deriving DecidableEq, Repr

/-- One `pixels.fill(wheel(pos, brightness, max_brightness)); pixels.show()`
render, recorded by the arguments handed to `wheel`. -/
structure Render where
  pos : ℤ
  brightness : ℤ
  max_brightness : ℤ
  deriving DecidableEq, Repr

/-- The touched-pad dispatch (lines 118-144): the branch for one pad,
returning the updated state and the renders it performs. -/
def padStep : Pad → State → State × List Render
  | Pad.color, s =>
      let c := colorStep s.color
      ({ s with color := c },
       [⟨c, s.cycle_brightness, s.cycle_max_brightness⟩])
  | Pad.speed, s =>
      let p := speedStep (s.cycle, s.cycle_change)
      ({ s with cycle := p.1, cycle_change := p.2 }, [])
  | Pad.brightness, s =>
      let p := brightStep (s.cycle_max_brightness, s.max_brightness_change)
      ({ s with cycle_max_brightness := p.1, max_brightness_change := p.2 },
       [⟨s.color, s.cycle_brightness, p.1⟩])

/-- One turn of the `for pad in sensor.keys()` loop (lines 116-117): if
the pad reads touched, run its branch and append its renders. -/
def dispatch (touched : Pad → Bool) (p : Pad) (acc : State × List Render) :
    State × List Render :=
  if touched p then
    let q := padStep p acc.1
    (q.1, acc.2 ++ q.2)
  else acc

/-- One iteration of the main loop (lines 112-168): poll the three pads
in dictionary order, then unconditionally recompute the envelope
brightness from the sine value `s` and render. -/
def tick (touched : Pad → Bool) (s : ℚ) (st : State) : State × List Render :=
  let r := dispatch touched Pad.brightness
    (dispatch touched Pad.speed (dispatch touched Pad.color (st, [])))
  let cb := envBrightness s
  ({ r.1 with cycle_brightness := cb },
   r.2 ++ [⟨r.1.color, cb, r.1.cycle_max_brightness⟩])

/-- Initial settings (lines 78-84). -/
def init : State :=
  { color := 1
    cycle := 2.0
    cycle_change := -0.1
    cycle_brightness := 255
    cycle_max_brightness := MAX_BRIGHTNESS
    max_brightness_change := -1 }

/-- Runs `n` iterations of the main loop from the initial settings, fed by a
stream of pad readings and of per-tick sine values; accumulates every
render performed inside the loop. -/
def run (touched : ℕ → Pad → Bool) (sv : ℕ → ℚ) : ℕ → State × List Render
  | 0 => (init, [])
  | n + 1 =>
      let p := run touched sv n
      let q := tick (touched n) (sv n) p.1
      (q.1, p.2 ++ q.2)

/-- The hue variable stays in `[1, 255]` (invariant used for claim
C10). -/
def ColorInv (s : State) : Prop := 1 ≤ s.color ∧ s.color ≤ 255

/-- A render whose wheel position is in `[1, 255]`. -/
def EvOk (ev : Render) : Prop := 1 ≤ ev.pos ∧ ev.pos ≤ 255

/-! ### Basic lemmas about `pyInt` -/

theorem ratFloor_eq (q : ℚ) : q.floor = ⌊q⌋ := by
  rw [Rat.floor_def', Rat.floor_def]

theorem pyInt_eq (q : ℚ) : pyInt q = if q < 0 then ⌈q⌉ else ⌊q⌋ := by
  unfold pyInt
  rcases lt_or_le q 0 with h | h
  · rw [if_pos h, if_pos h, ratFloor_eq, ← Int.ceil_neg, neg_neg]
  · rw [if_neg (not_lt.mpr h), if_neg (not_lt.mpr h), ratFloor_eq]

theorem pyInt_of_nonneg {q : ℚ} (h : 0 ≤ q) : pyInt q = ⌊q⌋ := by
  rw [pyInt_eq, if_neg (not_lt.mpr h)]

/-- Truncation keeps a value between integer bounds that contain it. -/
theorem pyInt_bounds {q : ℚ} {m : ℤ} (h0 : 0 ≤ q) (h1 : q ≤ (m : ℚ)) :
    0 ≤ pyInt q ∧ pyInt q ≤ m := by
  rw [pyInt_of_nonneg h0]
  refine ⟨Int.floor_nonneg.mpr h0, ?_⟩
  have h2 := Int.floor_le_floor h1
  rwa [Int.floor_intCast] at h2

/-- Each `scale(_, 0, 255, 0, _)` call collapses to a product over 255. -/
theorem scale_mul_div (x y : ℚ) : scale x 0 255 0 y = x * y / 255 := by
  unfold scale
  ring

/-- Truncation of an integer quotient over 255, as executable integer
division. -/
theorem pyInt_intCast_div (n : ℤ) :
    pyInt ((n : ℚ) / 255) = if n < 0 then -(-n / 255) else n / 255 := by
  rcases lt_or_le n 0 with h | h
  · have hq : ((n : ℚ) / 255) < 0 :=
      div_neg_of_neg_of_pos (by exact_mod_cast h) (by norm_num)
    rw [pyInt_eq, if_pos hq, if_pos h]
    have he : ((n : ℚ) / 255) = -(((-n : ℤ) : ℚ) / ((255 : ℕ) : ℚ)) := by
      push_cast
      ring
    rw [he, Int.ceil_neg, Rat.floor_intCast_div_natCast]
    norm_num
  · have hq : (0 : ℚ) ≤ (n : ℚ) / 255 :=
      div_nonneg (by exact_mod_cast h) (by norm_num)
    rw [pyInt_of_nonneg hq, if_neg (not_lt.mpr h)]
    have he : ((n : ℚ) / 255) = ((n : ℤ) : ℚ) / ((255 : ℕ) : ℚ) := by
      push_cast
      ring
    rw [he, Rat.floor_intCast_div_natCast]
    norm_num

/-- Executable integer form of the truncated scale pattern of `wheel`. -/
theorem pyInt_scale_int (a b : ℤ) :
    pyInt (scale (a : ℚ) 0 255 0 (b : ℚ)) =
      if a * b < 0 then -(-(a * b) / 255) else a * b / 255 := by
  rw [scale_mul_div]
  have he : ((a : ℚ) * (b : ℚ)) = ((a * b : ℤ) : ℚ) := by push_cast; ring
  rw [he, pyInt_intCast_div]

/-- A channel computation `int(scale(c, 0, 255, 0, sb))` stays inside
`[0, sb]` whenever `c ∈ [0, 255]` and `0 ≤ sb`. -/
theorem pyInt_scale_channel {c sb : ℤ} (h0 : 0 ≤ c) (h1 : c ≤ 255)
    (hsb : 0 ≤ sb) :
    0 ≤ pyInt (scale (c : ℚ) 0 255 0 (sb : ℚ)) ∧
    pyInt (scale (c : ℚ) 0 255 0 (sb : ℚ)) ≤ sb := by
  rw [scale_mul_div]
  have hc0 : (0 : ℚ) ≤ (c : ℚ) := by exact_mod_cast h0
  have hc1 : (c : ℚ) ≤ 255 := by exact_mod_cast h1
  have hs0 : (0 : ℚ) ≤ (sb : ℚ) := by exact_mod_cast hsb
  apply pyInt_bounds
  · positivity
  · rw [div_le_iff₀ (by norm_num : (0 : ℚ) < 255)]
    nlinarith

/-- Wheel takes the non-guard path whenever its position is in
range. -/
theorem wheel_eq_wheelBody {pos : ℤ} (b mb : ℤ) (h0 : 0 ≤ pos)
    (h1 : pos ≤ 255) :
    wheel pos b mb = wheelBody pos b mb := by
  unfold wheel
  rw [if_neg (by omega : ¬(pos < 0 ∨ pos > 255))]

/-! ### Claim theorems -/

/-- Claim C3, counterexample: with `x0 = 1`, `x1 = 0` (so `x1 ≠ x0`),
`y0 = 0 ≤ y1 = 1` and `x = 0 ≤ 1 = x'` the claimed monotone
non-decreasingness fails: `scale 0 1 0 0 1 = 1 > 0 = scale 1 1 0 0 1`. -/
theorem scale_monotone_counterexample :
    (0 : ℚ) ≠ 1 ∧ (0 : ℚ) ≤ 1 ∧
    scale 0 1 0 0 1 = 1 ∧ scale 1 1 0 0 1 = 0 ∧
    ¬(scale 0 1 0 0 1 ≤ scale 1 1 0 0 1) := by
  norm_num [scale]

/-- Claim C3, amended: `scale` hits its endpoints whenever `x1 ≠ x0`, and
is monotone non-decreasing in `x` when `y1 ≥ y0` and additionally
`x0 < x1` (the source interval is oriented the same way as the target
interval). -/
theorem scale_linear_endpoints_monotone (x y x0 x1 y0 y1 : ℚ)
    (hne : x1 ≠ x0) :
    scale x0 x0 x1 y0 y1 = y0 ∧ scale x1 x0 x1 y0 y1 = y1 ∧
    (y0 ≤ y1 → x0 < x1 → x ≤ y →
      scale x x0 x1 y0 y1 ≤ scale y x0 x1 y0 y1) := by
  have hd : x1 - x0 ≠ 0 := sub_ne_zero.mpr hne
  refine ⟨by simp [scale], ?_, ?_⟩
  · unfold scale
    field_simp
  · intro hy hx hxy
    unfold scale
    have hslope : 0 ≤ (y1 - y0) / (x1 - x0) :=
      div_nonneg (by linarith) (by linarith)
    have := mul_le_mul_of_nonneg_right
      (by linarith : x - x0 ≤ y - x0) hslope
    linarith

/-- Claim C3, witness: the amended theorem applied at
`x = 0, y = 1, x0 = 0, x1 = 255, y0 = 0, y1 = 255`. -/
theorem scale_linear_endpoints_monotone_witness :
    scale 0 0 255 0 255 = 0 ∧ scale 255 0 255 0 255 = 255 ∧
    ((0 : ℚ) ≤ 255 → (0 : ℚ) < 255 → (0 : ℚ) ≤ 1 →
      scale 0 0 255 0 255 ≤ scale 1 0 255 0 255) :=
  scale_linear_endpoints_monotone 0 1 0 255 0 255 (by norm_num)

/-- Claim C6: any out-of-range position yields the black triplet. -/
theorem wheel_out_of_range (pos b mb : ℤ) (h : pos < 0 ∨ pos > 255) :
    wheel pos b mb = (0, 0, 0) := by
  unfold wheel
  rw [if_pos h]

/-- Claim C6, witness: the theorem applied at `pos = -1` and at
`pos = 300`. -/
theorem wheel_out_of_range_witness :
    wheel (-1) 128 200 = (0, 0, 0) ∧ wheel 300 128 200 = (0, 0, 0) :=
  ⟨wheel_out_of_range (-1) 128 200 (Or.inl (by norm_num)),
   wheel_out_of_range 300 128 200 (Or.inr (by norm_num))⟩

/-- Claim C7: the three primary hue anchors of `wheel` at full
brightness, including the exact band boundaries 85 and 170. -/
theorem wheel_primary_anchors :
    wheel 0 255 255 = (255, 0, 0) ∧ wheel 85 255 255 = (0, 255, 0) ∧
    wheel 170 255 255 = (0, 0, 255) := by
  refine ⟨?_, ?_, ?_⟩ <;>
    · simp only [wheel, wheelBody, pyInt_scale_int]
      decide

/-- Claim C2, counterexample: with no restriction on `brightness` the
claim fails: `wheel(0, 510, 255)` has red channel `510 > 255`, and with
a negative `max_brightness` the channel `-255` is below `0`. -/
theorem wheel_channel_counterexample :
    (wheel 0 510 255).1 = 510 ∧ ¬((wheel 0 510 255).1 ≤ 255) ∧
    (wheel 0 255 (-255)).1 = -255 ∧ ¬(0 ≤ (wheel 0 255 (-255)).1) := by
  refine ⟨?_, ?_, ?_, ?_⟩ <;>
    · simp only [wheel, wheelBody, pyInt_scale_int]
      decide

/-- Claim C2, amended: for `brightness ∈ [0, 255]`, `max_brightness ≥ 0`
and `pos ∈ [0, 255]`, each channel of `wheel` lies in
`[0, max_brightness]`. -/
theorem wheel_channels_in_range (pos b mb : ℤ)
    (hp0 : 0 ≤ pos) (hp1 : pos ≤ 255)
    (hb0 : 0 ≤ b) (hb1 : b ≤ 255) (hm : 0 ≤ mb) :
    (0 ≤ (wheel pos b mb).1 ∧ (wheel pos b mb).1 ≤ mb) ∧
    (0 ≤ (wheel pos b mb).2.1 ∧ (wheel pos b mb).2.1 ≤ mb) ∧
    (0 ≤ (wheel pos b mb).2.2 ∧ (wheel pos b mb).2.2 ≤ mb) := by
  rw [wheel_eq_wheelBody b mb hp0 hp1]
  obtain ⟨hsb0, hsb1⟩ := pyInt_scale_channel hb0 hb1 hm
  simp only [wheelBody]
  split_ifs with h1 h2
  · obtain ⟨hr0, hr1⟩ := pyInt_scale_channel
      (by omega : (0 : ℤ) ≤ 255 - pos * 3) (by omega) hsb0
    obtain ⟨hg0, hg1⟩ := pyInt_scale_channel
      (by omega : (0 : ℤ) ≤ pos * 3) (by omega) hsb0
    exact ⟨⟨hr0, hr1.trans hsb1⟩, ⟨hg0, hg1.trans hsb1⟩, le_refl 0, hm⟩
  · obtain ⟨hg0, hg1⟩ := pyInt_scale_channel
      (by omega : (0 : ℤ) ≤ 255 - (pos - 85) * 3) (by omega) hsb0
    obtain ⟨hb0q, hb1q⟩ := pyInt_scale_channel
      (by omega : (0 : ℤ) ≤ (pos - 85) * 3) (by omega) hsb0
    exact ⟨⟨le_refl 0, hm⟩, ⟨hg0, hg1.trans hsb1⟩, hb0q, hb1q.trans hsb1⟩
  · obtain ⟨hr0, hr1⟩ := pyInt_scale_channel
      (by omega : (0 : ℤ) ≤ (pos - 170) * 3) (by omega) hsb0
    obtain ⟨hb0q, hb1q⟩ := pyInt_scale_channel
      (by omega : (0 : ℤ) ≤ 255 - (pos - 170) * 3) (by omega) hsb0
    exact ⟨⟨hr0, hr1.trans hsb1⟩, ⟨le_refl 0, hm⟩, hb0q, hb1q.trans hsb1⟩

/-- Claim C2, witness: the amended theorem applied at
`pos = 10, brightness = 200, max_brightness = 100`. -/
theorem wheel_channels_in_range_witness :
    (0 ≤ (wheel 10 200 100).1 ∧ (wheel 10 200 100).1 ≤ 100) ∧
    (0 ≤ (wheel 10 200 100).2.1 ∧ (wheel 10 200 100).2.1 ≤ 100) ∧
    (0 ≤ (wheel 10 200 100).2.2 ∧ (wheel 10 200 100).2.2 ≤ 100) :=
  wheel_channels_in_range 10 200 100 (by norm_num) (by norm_num)
    (by norm_num) (by norm_num) (by norm_num)

/-- On every tick the loop stores exactly `envBrightness s` into
`cycle_brightness`, whatever the pads did. -/
theorem tick_cycle_brightness (touched : Pad → Bool) (s : ℚ) (st : State) :
    (tick touched s st).1.cycle_brightness = envBrightness s := rfl

/-- Claim C8: for any sine value `s ∈ [-1, 1]`, the envelope brightness
`int(scale(s, -1.0, 1.0, 0, 255))` lies in `[0, 255]`; it is the value
stored in `cycle_brightness` on every loop iteration. -/
theorem envBrightness_in_range (s : ℚ) (h1 : -1 ≤ s) (h2 : s ≤ 1) :
    (0 ≤ envBrightness s ∧ envBrightness s ≤ 255) ∧
    ∀ (touched : Pad → Bool) (st : State),
      (tick touched s st).1.cycle_brightness = envBrightness s := by
  refine ⟨?_, fun touched st => tick_cycle_brightness touched s st⟩
  unfold envBrightness
  have hv : scale s (-1) 1 0 255 = (s + 1) * (255 / 2) := by
    unfold scale
    ring
  rw [hv]
  apply pyInt_bounds
  · nlinarith
  · push_cast
    nlinarith

/-- Claim C8, witness: the theorem applied at `s = 1`. -/
theorem envBrightness_in_range_witness :
    (0 ≤ envBrightness 1 ∧ envBrightness 1 ≤ 255) ∧
    ∀ (touched : Pad → Bool) (st : State),
      (tick touched 1 st).1.cycle_brightness = envBrightness 1 :=
  envBrightness_in_range 1 (by norm_num) (by norm_num)

/-- Claim C4: a speed-pad step keeps `cycle` inside
`[MIN_CYCLE_TIME, MAX_CYCLE_TIME] = [0.5, 10.0]` whenever it starts
there with step `±0.1`; overshooting the top bound lands on `9.9` with
step `-0.1`, undershooting the bottom bound lands on `0.6` with step
`+0.1`. -/
theorem cycle_bounce_invariant (c st : ℚ)
    (hc0 : MIN_CYCLE_TIME ≤ c) (hc1 : c ≤ MAX_CYCLE_TIME)
    (hst : st = 0.1 ∨ st = -0.1) :
    (MIN_CYCLE_TIME ≤ (speedStep (c, st)).1 ∧
      (speedStep (c, st)).1 ≤ MAX_CYCLE_TIME) ∧
    (c + st > 10 → speedStep (c, st) = (9.9, -0.1)) ∧
    (c + st < 0.5 → speedStep (c, st) = (0.6, 0.1)) := by
  rcases hst with rfl | rfl <;>
    · simp only [speedStep]
      split_ifs with hA hB <;>
        refine ⟨⟨?_, ?_⟩, fun h => ?_, fun h => ?_⟩ <;>
          norm_num [MIN_CYCLE_TIME, MAX_CYCLE_TIME, Prod.ext_iff] at * <;>
          linarith

/-- Claim C4, witness: the theorem applied at `cycle = 10` with step
`+0.1`, exercising the upper bounce. -/
theorem cycle_bounce_invariant_witness :
    ((MIN_CYCLE_TIME ≤ (speedStep (10, 0.1)).1 ∧
      (speedStep (10, 0.1)).1 ≤ MAX_CYCLE_TIME) ∧
    ((10 : ℚ) + 0.1 > 10 → speedStep (10, 0.1) = (9.9, -0.1)) ∧
    ((10 : ℚ) + 0.1 < 0.5 → speedStep (10, 0.1) = (0.6, 0.1))) :=
  cycle_bounce_invariant 10 0.1
    (by norm_num [MIN_CYCLE_TIME]) (by norm_num [MAX_CYCLE_TIME])
    (Or.inl rfl)

/-- Splitting an iteration count lets long runs be checked in chunks. -/
theorem iter_chunk {α : Type} (f : α → α) (k m n : ℕ) (x y z : α)
    (hk : k = m + n) (h1 : f^[n] x = y) (h2 : f^[m] y = z) :
    f^[k] x = z := by
  subst hk
  rw [Function.iterate_add_apply, h1, h2]

/-- Claim C1, counterexample: from `(255, -1)` the first boundary
correction happens at step 246 (step 245 reaches `(10, -1)`, step 246
bounces to `(11, 1)`), yet at step 735 the value is 10 again — the
trajectory keeps revisiting 10 after the first correction, refuting
"lies in [11, 255], never 10 or below". -/
theorem brightness_floor_counterexample :
    brightStep^[245] (255, -1) = (10, -1) ∧
    brightStep^[246] (255, -1) = (11, 1) ∧
    brightStep^[735] (255, -1) = (10, -1) := by
  have h1 : brightStep^[100] (255, -1) = (155, -1) := by decide
  have h2 : brightStep^[100] (155, -1) = (55, -1) := by decide
  have h200 : brightStep^[200] (255, -1) = (55, -1) :=
    iter_chunk _ 200 100 100 _ _ _ (by norm_num) h1 h2
  have h3 : brightStep^[45] (55, -1) = (10, -1) := by decide
  have h4 : brightStep^[46] (55, -1) = (11, 1) := by decide
  have h5 : brightStep^[100] (55, -1) = (65, 1) := by decide
  have h6 : brightStep^[100] (65, 1) = (165, 1) := by decide
  have h7 : brightStep^[100] (165, 1) = (245, -1) := by decide
  have h8 : brightStep^[100] (245, -1) = (145, -1) := by decide
  have h9 : brightStep^[100] (145, -1) = (45, -1) := by decide
  have h10 : brightStep^[35] (45, -1) = (10, -1) := by decide
  refine ⟨iter_chunk _ 245 45 200 _ _ _ (by norm_num) h200 h3,
    iter_chunk _ 246 46 200 _ _ _ (by norm_num) h200 h4, ?_⟩
  have h300 : brightStep^[300] (255, -1) = (65, 1) :=
    iter_chunk _ 300 100 200 _ _ _ (by norm_num) h200 h5
  have h400 : brightStep^[400] (255, -1) = (165, 1) :=
    iter_chunk _ 400 100 300 _ _ _ (by norm_num) h300 h6
  have h500 : brightStep^[500] (255, -1) = (245, -1) :=
    iter_chunk _ 500 100 400 _ _ _ (by norm_num) h400 h7
  have h600 : brightStep^[600] (255, -1) = (145, -1) :=
    iter_chunk _ 600 100 500 _ _ _ (by norm_num) h500 h8
  have h700 : brightStep^[700] (255, -1) = (45, -1) :=
    iter_chunk _ 700 100 600 _ _ _ (by norm_num) h600 h9
  exact iter_chunk _ 735 35 700 _ _ _ (by norm_num) h700 h10

/-- Claim C1, amended: starting from 255 with step -1, after every
brightness-pad step the value `cycle_max_brightness` lies in `[10, 255]`
— it does reach 10 at the bottom of each descent (the correction fires
only strictly below 10), but never 9 or less. -/
theorem brightness_bounce_invariant (n : ℕ) :
    10 ≤ (brightStep^[n] (255, -1)).1 ∧ (brightStep^[n] (255, -1)).1 ≤ 255 := by
  have key : ∀ m : ℕ,
      (10 ≤ (brightStep^[m] (255, -1)).1 ∧
        (brightStep^[m] (255, -1)).1 ≤ 255) ∧
      ((brightStep^[m] (255, -1)).2 = -1 ∨ (brightStep^[m] (255, -1)).2 = 1) := by
    intro m
    induction m with
    | zero => norm_num
    | succ k ih =>
        obtain ⟨⟨hl, hu⟩, hst⟩ := ih
        rw [Function.iterate_succ_apply']
        set p := brightStep^[k] (255, -1) with hp
        simp only [brightStep, MAX_BRIGHTNESS]
        split_ifs with hA hB <;> rcases hst with h | h <;> simp <;> omega
  exact (key n).1

/-- Claim C5: the hue wraps rather than clamps: 255 consecutive
color-pad touches return the hue from 1 to 1, and after every touch the
hue stays in `[1, 255]`. -/
theorem hue_wrap_invariant :
    colorStep^[255] 1 = 1 ∧
    ∀ n : ℕ, 1 ≤ colorStep^[n] 1 ∧ colorStep^[n] 1 ≤ 255 := by
  constructor
  · have h1 : colorStep^[100] (1 : ℤ) = 101 := by decide
    have h2 : colorStep^[100] (101 : ℤ) = 201 := by decide
    have h3 : colorStep^[55] (201 : ℤ) = 1 := by decide
    exact iter_chunk _ 255 55 200 _ _ _ (by norm_num)
      (iter_chunk _ 200 100 100 _ _ _ (by norm_num) h1 h2) h3
  · intro n
    induction n with
    | zero => norm_num
    | succ k ih =>
        rw [Function.iterate_succ_apply']
        simp only [colorStep]
        split_ifs with h <;> omega

/-- Claim C9: each pad branch mutates only its own state: the color
branch leaves everything but `color` unchanged and renders once; the
speed branch leaves everything but `cycle`/`cycle_change` unchanged and
renders nothing; the brightness branch leaves everything but
`cycle_max_brightness`/`max_brightness_change` unchanged and renders
once. -/
theorem pad_branch_frame (s : State) :
    ((padStep Pad.color s).1.cycle = s.cycle ∧
     (padStep Pad.color s).1.cycle_change = s.cycle_change ∧
     (padStep Pad.color s).1.cycle_brightness = s.cycle_brightness ∧
     (padStep Pad.color s).1.cycle_max_brightness = s.cycle_max_brightness ∧
     (padStep Pad.color s).1.max_brightness_change = s.max_brightness_change ∧
     (padStep Pad.color s).2.length = 1) ∧
    ((padStep Pad.speed s).1.color = s.color ∧
     (padStep Pad.speed s).1.cycle_brightness = s.cycle_brightness ∧
     (padStep Pad.speed s).1.cycle_max_brightness = s.cycle_max_brightness ∧
     (padStep Pad.speed s).1.max_brightness_change = s.max_brightness_change ∧
     (padStep Pad.speed s).2 = []) ∧
    ((padStep Pad.brightness s).1.color = s.color ∧
     (padStep Pad.brightness s).1.cycle = s.cycle ∧
     (padStep Pad.brightness s).1.cycle_change = s.cycle_change ∧
     (padStep Pad.brightness s).1.cycle_brightness = s.cycle_brightness ∧
     (padStep Pad.brightness s).2.length = 1) := by
  simp [padStep]

/-! ### Reachability invariant of the main loop (claim C10) -/

theorem colorStep_range {c : ℤ} (h1 : 1 ≤ c) (h2 : c ≤ 255) :
    1 ≤ colorStep c ∧ colorStep c ≤ 255 := by
  simp only [colorStep]
  split_ifs <;> omega

theorem padStep_colorInv (p : Pad) (s : State) (h : ColorInv s) :
    ColorInv (padStep p s).1 := by
  cases p
  · exact colorStep_range h.1 h.2
  · exact h
  · exact h

theorem padStep_events (p : Pad) (s : State) (h : ColorInv s) :
    ∀ ev ∈ (padStep p s).2, EvOk ev := by
  cases p <;> intro ev hev <;>
    simp only [padStep, List.mem_singleton] at hev
  · subst hev
    exact colorStep_range h.1 h.2
  · exact absurd hev (List.not_mem_nil ev)
  · subst hev
    exact h

theorem dispatch_inv (touched : Pad → Bool) (p : Pad)
    (acc : State × List Render) (h1 : ColorInv acc.1)
    (h2 : ∀ ev ∈ acc.2, EvOk ev) :
    ColorInv (dispatch touched p acc).1 ∧
    ∀ ev ∈ (dispatch touched p acc).2, EvOk ev := by
  unfold dispatch
  split_ifs with ht
  · refine ⟨padStep_colorInv p acc.1 h1, ?_⟩
    intro ev hev
    rcases List.mem_append.mp hev with hl | hr
    · exact h2 ev hl
    · exact padStep_events p acc.1 h1 ev hr
  · exact ⟨h1, h2⟩

theorem tick_inv (touched : Pad → Bool) (sq : ℚ) (st : State)
    (h : ColorInv st) :
    ColorInv (tick touched sq st).1 ∧
    ∀ ev ∈ (tick touched sq st).2, EvOk ev := by
  obtain ⟨ha1, ha2⟩ := dispatch_inv touched Pad.color (st, []) h
    (fun ev hev => absurd hev (List.not_mem_nil ev))
  obtain ⟨hb1, hb2⟩ := dispatch_inv touched Pad.speed _ ha1 ha2
  obtain ⟨hc1, hc2⟩ := dispatch_inv touched Pad.brightness _ hb1 hb2
  refine ⟨hc1, ?_⟩
  intro ev hev
  rcases List.mem_append.mp hev with hl | hr
  · exact hc2 ev hl
  · rw [List.mem_singleton.mp hr]
    exact hc1

theorem run_inv (touched : ℕ → Pad → Bool) (sv : ℕ → ℚ) (n : ℕ) :
    ColorInv (run touched sv n).1 ∧
    ∀ ev ∈ (run touched sv n).2, EvOk ev := by
  induction n with
  | zero =>
      refine ⟨⟨le_refl 1, ?_⟩, ?_⟩
      · show (1 : ℤ) ≤ 255
        norm_num
      · intro ev hev
        exact absurd hev (List.not_mem_nil ev)
  | succ k ih =>
      obtain ⟨h1, h2⟩ := ih
      obtain ⟨h3, h4⟩ := tick_inv (touched k) (sv k) (run touched sv k).1 h1
      refine ⟨h3, ?_⟩
      intro ev hev
      rcases List.mem_append.mp hev with hl | hr
      · exact h2 ev hl
      · exact h4 ev hr

/-- Claim C10: every fill+show issued inside the main loop passes
`pos = color ∈ [1, 255]` to `wheel` — the initial hue is 1 and the wrap
rule keeps it in range — so `wheel` evaluates through its hue-band body
`wheelBody`: the out-of-range guard returning `(0, 0, 0)` is unreachable
from the main loop and no render is forced to black by it. -/
theorem main_loop_guard_unreachable (touched : ℕ → Pad → Bool)
    (sv : ℕ → ℚ) (n : ℕ) (ev : Render)
    (hev : ev ∈ (run touched sv n).2) :
    (1 ≤ ev.pos ∧ ev.pos ≤ 255) ∧
    wheel ev.pos ev.brightness ev.max_brightness =
      wheelBody ev.pos ev.brightness ev.max_brightness := by
  have h2 : 1 ≤ ev.pos ∧ ev.pos ≤ 255 := (run_inv touched sv n).2 ev hev
  exact ⟨h2, wheel_eq_wheelBody _ _ (by omega) h2.2⟩

/-- Claim C10, witness: the theorem applied to the single render of the
first untouched iteration. -/
theorem main_loop_guard_unreachable_witness :
    ((1 : ℤ) ≤ 1 ∧ (1 : ℤ) ≤ 255) ∧
    wheel 1 (envBrightness 1) 255 = wheelBody 1 (envBrightness 1) 255 :=
  main_loop_guard_unreachable (fun _ _ => false) (fun _ => 1) 1
    ⟨1, envBrightness 1, 255⟩ (List.Mem.head _)

end AdafruitPulse
